import Mathlib

/-!
Verification of the SMS_MAXIS_SCRIPT monitoring scripts.

This file gives a shallow embedding, in Lean 4, of the core logic repeated
across the monitor scripts of the repository:

* the per-poll alert state machine (the "debouncer") that each monitor
  (`monitor_cpu.py`, `monitor_jar.py`, `monitor_trace.py`,
  `monitor_sip_error.py`) implements inline as an
  `if previous/current` chain over a persisted `{status, last_alert_time}`
  record;
* the offset-checkpointed incremental log scanner
  (`process_pattern` in `monitor_responces.py`, `read_new_errors` in
  `monitor_sip_error.py`);
* the windowed rate aggregator of `monitor_responces.py` (per-label
  `{baseline, delta, window_start}` windows with stall detection);
* the state persistence helpers `load_state` / `save_state`;
* the active-log selection of `monitor_sip_error.py`
  (`get_active_sip_log` plus the cursor-reset on identity change).

File contents are modelled as lists of tokens (characters/bytes), wall-clock
times as `Int` (Python integers from `int(time.time())`), and pattern-match
counting as leftmost non-overlapping occurrence counting, which is what
`re.findall` computes for the literal patterns the scripts are configured
with.
-/

namespace Maxis

/-- The two persisted monitor statuses, `STATUS_OK` / `STATUS_FAIL`. -/
inductive Status where
  | ok
  | fail
deriving DecidableEq, Repr

/-- The three kinds of alert mail that a monitor sends: the OK→FAIL
"detected" alert, the FAIL→FAIL "still failing" alert, and the FAIL→OK
"resolved" alert. -/
inductive AlertKind where
  | detected
  | stillFailing
  | resolved
deriving DecidableEq, Repr

/-- Result of one debouncer step: the persisted status, the alert sent this
poll (if any), and the persisted `last_alert_time`. -/
structure DebounceOut where
  status : Status
  alert : Option AlertKind
  last_alert_time : Option Int
deriving DecidableEq, Repr

/-- One per-poll transition of the alert state machine, translated from the
`if previous_status/current_status` chain common to `monitor_cpu.py`
(lines 82–137), `monitor_jar.py` (85–139), `monitor_trace.py` (164–211) and
`monitor_sip_error.py` (222–279).  `healthy` is the boolean signal
(`current_status = OK` iff healthy); the FAIL→FAIL branch alerts when
`last_alert_time is None or (now - last_alert_time) >= cooldown`; the final
`else` branch (OK with healthy signal) changes nothing. -/
def debounceStep (previous : Status) (healthy : Bool) (cooldown now : Int)
    (last_alert_time : Option Int) : DebounceOut :=
  let current : Status := if healthy then .ok else .fail
  if previous = .ok ∧ current = .fail then
    { status := .fail, alert := some .detected, last_alert_time := some now }
  else if previous = .fail ∧ current = .fail then
    match last_alert_time with
    | none =>
        { status := .fail, alert := some .stillFailing, last_alert_time := some now }
    | some t =>
        if now - t ≥ cooldown then
          { status := .fail, alert := some .stillFailing, last_alert_time := some now }
        else
          { status := .fail, alert := none, last_alert_time := some t }
  else if previous = .fail ∧ current = .ok then
    { status := .ok, alert := some .resolved, last_alert_time := none }
  else
    { status := previous, alert := none, last_alert_time := last_alert_time }

/-- Modelled from the spec: the transition table of §4.2, row by row
(previous status × current signal, with the FAIL+unhealthy row split on
`now − last_alert_time < cooldown` versus `≥ cooldown` or null
`last_alert_time`). -/
def debounceTable (previous : Status) (healthy : Bool) (cooldown now : Int)
    (last_alert_time : Option Int) : DebounceOut :=
  match previous, healthy with
  | .ok, true =>
      { status := .ok, alert := none, last_alert_time := last_alert_time }
  | .ok, false =>
      { status := .fail, alert := some .detected, last_alert_time := some now }
  | .fail, false =>
      match last_alert_time with
      | some t =>
          if now - t < cooldown then
            { status := .fail, alert := none, last_alert_time := some t }
          else
            { status := .fail, alert := some .stillFailing, last_alert_time := some now }
      | none =>
          { status := .fail, alert := some .stillFailing, last_alert_time := some now }
  | .fail, true =>
      { status := .ok, alert := some .resolved, last_alert_time := none }

/-- Debouncer state as tracked across polls, instrumented with
`episodeAlerts`, the number of alerts sent since the most recent entry into
the FAIL status (0 while OK).  `status` and `last_alert_time` are the two
persisted fields of the monitors' state records. -/
structure DState where
  status : Status
  last_alert_time : Option Int
  episodeAlerts : Nat
deriving DecidableEq, Repr

/-- The default record a monitor starts from
(`{"status": STATUS_OK, "last_alert_time": None}`). -/
def dInit : DState :=
  { status := .ok, last_alert_time := none, episodeAlerts := 0 }

/-- One poll of a monitor on input `(healthy, now)`: apply `debounceStep`
and update the episode alert counter (reset on OK, incremented by the alert
just sent while FAIL). -/
def dStep (cooldown : Int) (s : DState) (inp : Bool × Int) : DState :=
  let o := debounceStep s.status inp.1 cooldown inp.2 s.last_alert_time
  { status := o.status
    last_alert_time := o.last_alert_time
    episodeAlerts :=
      if o.status = .fail then
        s.episodeAlerts + (if o.alert.isSome then 1 else 0)
      else 0 }

/-- Run a monitor entity from the default record over a list of
`(healthy, now)` poll inputs. -/
def dRun (cooldown : Int) (inputs : List (Bool × Int)) : DState :=
  inputs.foldl (dStep cooldown) dInit

/-- During an uninterrupted fault, the times at which a monitor polling once
per second polls: `t0 + 1, t0 + 2, …, t0 + T`. -/
def pollTimes (t0 : Int) : Nat → List Int
  | 0 => []
  | T + 1 => (t0 + 1) :: pollTimes (t0 + 1) T

/-- Number of alerts the debouncer emits over a sequence of poll times with
the signal constantly unhealthy, starting from status/`last_alert_time`
state `s`. -/
def unhealthyAlertCount (cooldown : Int) (s : Status × Option Int) :
    List Int → Nat
  | [] => 0
  | t :: rest =>
    let o := debounceStep s.1 false cooldown t s.2
    (if o.alert.isSome then 1 else 0) +
      unhealthyAlertCount cooldown (o.status, o.last_alert_time) rest

/-- Leftmost non-overlapping occurrence counting of a literal pattern `p` in
a token list: what `re.findall(pattern, new_data)` computes (as `len`) in
`process_pattern` of `monitor_responces.py` for the literal grep patterns the
script is configured with — scan left to right, and on a match advance past
the whole match.  An empty pattern never matches here (the scripts never
configure one). -/
def countOcc {α : Type} [DecidableEq α] (p : List α) : List α → Nat
  | [] => 0
  | a :: s =>
    if p ≠ [] ∧ p.isPrefixOf (a :: s) then
      countOcc p (s.drop (p.length - 1)) + 1
    else
      countOcc p s
termination_by s => s.length
decreasing_by
  · simp only [List.length_drop, List.length_cons]; omega
  · simp only [List.length_cons]; omega

/-- Structurally recursive evaluator for `countOcc`: the first argument is
the number of positions still covered by the most recent match (the scan
does not restart a match inside them).  Used to evaluate `countOcc` on
concrete inputs; `countOccA_eq_drop` proves it equal to `countOcc`. -/
def countOccA {α : Type} [DecidableEq α] (p : List α) : Nat → List α → Nat
  | _, [] => 0
  | 0, a :: s =>
      if p ≠ [] ∧ p.isPrefixOf (a :: s) then countOccA p (p.length - 1) s + 1
      else countOccA p 0 s
  | k + 1, _ :: s => countOccA p k s

/-- Concrete 250-token file content whose single `[1, 2]` match spans the
boundary between byte 99 and byte 100. -/
def cexContent : List Nat :=
  List.replicate 99 0 ++ 1 :: 2 :: List.replicate 149 0

/-- One incremental scan of one file, translated from the per-file body of
`process_pattern` in `monitor_responces.py` (lines 62–86): seek to the end
to learn `size`, reset the offset to 0 if it exceeds `size` (truncation /
rotation), seek to the offset, read to the end counting the pattern matches
of the newly read slice, and return the new offset `f.tell()`, which is the
end-of-file position at read time.  The file's current content is `content`;
the result is `(match_count, new_offset)`. -/
def process_pattern_scan {α : Type} [DecidableEq α] (content : List α)
    (offset : Nat) (p : List α) : Nat × Nat :=
  let size := content.length
  let off := if offset > size then 0 else offset
  (countOcc p (content.drop off), size)

/-- The per-label window record kept in `state["counts"]["SUM::<label>"]`
by `monitor_responces.py`: `{baseline, delta, window_start}`. -/
structure WindowState where
  baseline : Nat
  delta : Nat
  window_start : Int
deriving DecidableEq, Repr

/-- Which branch of the window-close decision the aggregator takes:
`stalled` is the `delta == 0` branch, `active` the other. -/
inductive WDecision where
  | stalled
  | active
deriving DecidableEq, Repr

/-- Output of one per-label evaluation of the aggregator: the updated
window, status and `state["alerts"]` entry, whether a stall alert or a
resolved alert was queued this cycle, and which decision branch (if any)
was taken. -/
structure LabelOut where
  window : WindowState
  status : Status
  alertEntry : Option Int
  failAlert : Bool
  resolvedAlert : Bool
  decision : Option WDecision
deriving DecidableEq, Repr

/-- One per-label evaluation of the windowed rate aggregator, translated
from the loop body of `monitor` in `monitor_responces.py` (lines 189–220)
for a label whose window record already exists: add this cycle's match total
to `delta`; if `now - window_start < interval` stop there (`continue`);
otherwise branch on `delta == 0` — a stall alerts only when the previous
status is OK and the cooldown since `state["alerts"].get(key, 0)` has
elapsed, activity resolves only a previous FAIL (and pops the alerts
entry) — and finally roll the window to
`{baseline: baseline + delta, delta: 0, window_start: now}`. -/
def labelStep (w : WindowState) (prevStatus : Status) (alertEntry : Option Int)
    (total_delta : Nat) (now interval cooldown : Int) : LabelOut :=
  let last_alert : Int := alertEntry.getD 0
  let delta := w.delta + total_delta
  if now - w.window_start < interval then
    ⟨⟨w.baseline, delta, w.window_start⟩, prevStatus, alertEntry,
      false, false, none⟩
  else
    let new_total := w.baseline + delta
    let rolled : WindowState := ⟨new_total, 0, now⟩
    if delta = 0 then
      if prevStatus = .ok ∧ now - last_alert ≥ cooldown then
        ⟨rolled, .fail, some now, true, false, some .stalled⟩
      else
        ⟨rolled, prevStatus, alertEntry, false, false, some .stalled⟩
    else
      if prevStatus = .fail then
        ⟨rolled, .ok, none, false, true, some .active⟩
      else
        ⟨rolled, prevStatus, alertEntry, false, false, some .active⟩

/-- Run the per-label aggregator over a list of cycles, each supplying this
cycle's match total and wall-clock time; returns the final
(window, status, alerts entry) and the number of stall alerts emitted. -/
def runLabel (interval cooldown : Int) :
    WindowState → Status → Option Int → List (Nat × Int) →
      (WindowState × Status × Option Int) × Nat
  | w, st, ae, [] => ((w, st, ae), 0)
  | w, st, ae, (td, now) :: rest =>
      let o := labelStep w st ae td now interval cooldown
      let r := runLabel interval cooldown o.window o.status o.alertEntry rest
      (r.1, (if o.failAlert then 1 else 0) + r.2)

/-- The persisted record of `monitor_cpu.py`. -/
structure CpuRecord where
  status : Status
  last_alert_time : Option Int
deriving DecidableEq, Repr

/-- The default record `monitor_cpu.py` falls back to:
`{"status": STATUS_OK, "last_alert_time": None}`. -/
def cpuDefault : CpuRecord :=
  { status := .ok, last_alert_time := none }

/-- Function `load_state` of `monitor_cpu.py` (lines 21–31): `none` models an absent
state file, `some none` a present but empty or unparsable one (the
`except Exception` path of `json.load`), `some (some r)` a parsed record. -/
def load_state_cpu (backing : Option (Option CpuRecord)) : CpuRecord :=
  match backing with
  | some (some r) => r
  | _ => cpuDefault

/-- The persisted record of `monitor_trace.py`, with the per-file mtime
sub-map. -/
structure TraceRecord where
  status : Status
  last_alert_time : Option Int
  files : List (List Char × Int)
deriving DecidableEq, Repr

/-- The default record `monitor_trace.py` falls back to:
`{"status": STATUS_OK, "last_alert_time": None, "files": {}}`. -/
def traceDefault : TraceRecord :=
  { status := .ok, last_alert_time := none, files := [] }

/-- Function `load_state` of `monitor_trace.py` (lines 19–30), encoded like
`load_state_cpu`. -/
def load_state_trace (backing : Option (Option TraceRecord)) : TraceRecord :=
  match backing with
  | some (some r) => r
  | _ => traceDefault

/-- The sequence of contents of the target state file observable by a
reader while `save_state` runs, translated from `monitor_cpu.py` lines
34–37 (identical in every script): `open(state_file, "w")` truncates the
target in place to the empty content, then `json.dump` streams the `k`-th
character-wise stage `data.take k` until the full serialized record is
written.  A crash leaves the target at whichever stage was reached. -/
def save_state_intermediates (data : List Char) : List (List Char) :=
  (List.range (data.length + 1)).map (fun k => data.take k)

/-- A sample previously persisted record (abbreviated JSON content). -/
def oldRecordCex : List Char := ['{', 'O', 'K', '}']

/-- A sample record being saved over `oldRecordCex`. -/
def newRecordCex : List Char := ['{', 'F', 'A', 'I', 'L', '}']

/-- The `.log` filename suffix required by `get_active_sip_log`. -/
def logSuffix : List Char := ['.', 'l', 'o', 'g']

/-- Function `get_active_sip_log` of `monitor_sip_error.py` (lines 67–85): among the
directory entries (filename, mtime), keep those whose name starts with the
configured basename and ends with `.log`, and return the most recently
modified one (Python's `max(files, key=os.path.getmtime)` keeps the first
of equally recent files, as the fold does). -/
def get_active_sip_log (entries : List (List Char × Int)) (base : List Char) :
    Option (List Char) :=
  match entries.filter
      (fun e => base.isPrefixOf e.1 && logSuffix.isSuffixOf e.1) with
  | [] => none
  | f :: rest =>
      some (rest.foldl (fun acc e => if e.2 > acc.2 then e else acc) f).1

/-- Per-instance state of `monitor_sip_error.py`:
`{status, last_alert_time, offset, file}`. -/
structure InstState where
  status : Status
  last_alert_time : Option Int
  offset : Nat
  file : List Char
deriving DecidableEq, Repr

/-- The per-instance cursor fix-up of `monitor_sip_errors` (lines 191–201):
take the stored instance state (or the default, whose cursor already names
the active log with offset 0) and, if the recorded file differs from the
newly selected active log, reset the offset to 0 and repoint the cursor
before the scan. -/
def instStateFor (stored : Option InstState) (log_path : List Char) :
    InstState :=
  let inst := stored.getD
    { status := .ok, last_alert_time := none, offset := 0, file := log_path }
  if inst.file ≠ log_path then
    { inst with offset := 0, file := log_path }
  else
    inst

/-- Claim C1: for every input tuple, the per-poll transition of the monitors
produces exactly the next state, alert and `last_alert_time` update given by
the §4.2 table, and no other transition is reachable. -/
theorem debounceStep_matches_table (previous : Status) (healthy : Bool)
    (cooldown now : Int) (last_alert_time : Option Int) :
    debounceStep previous healthy cooldown now last_alert_time =
      debounceTable previous healthy cooldown now last_alert_time := by
  cases previous <;> cases healthy <;> cases last_alert_time <;>
    simp [debounceStep, debounceTable] <;> split <;> split <;> first | rfl | omega

theorem dStep_preserves_inv (c : Int) (s : DState) (inp : Bool × Int)
    (h : s.last_alert_time ≠ none → s.status = .fail ∧ 1 ≤ s.episodeAlerts) :
    (dStep c s inp).last_alert_time ≠ none →
      (dStep c s inp).status = .fail ∧ 1 ≤ (dStep c s inp).episodeAlerts := by
  obtain ⟨st, la, ep⟩ := s
  obtain ⟨hb, t⟩ := inp
  cases st <;> cases hb <;> cases la <;>
    simp_all [dStep, debounceStep] <;> split <;> simp_all <;> omega

theorem foldl_dStep_inv (c : Int) (inputs : List (Bool × Int)) :
    ∀ s : DState,
      (s.last_alert_time ≠ none → s.status = .fail ∧ 1 ≤ s.episodeAlerts) →
      ((inputs.foldl (dStep c) s).last_alert_time ≠ none →
        (inputs.foldl (dStep c) s).status = .fail ∧
          1 ≤ (inputs.foldl (dStep c) s).episodeAlerts) := by
  induction inputs with
  | nil => intro s hs; simpa using hs
  | cons a rest ih =>
      intro s hs
      simpa using ih (dStep c s a) (dStep_preserves_inv c s a hs)

theorem dStep_clears_iff (c : Int) (s : DState) (hb : Bool) (t : Int) :
    (s.last_alert_time ≠ none ∧ (dStep c s (hb, t)).last_alert_time = none) ↔
      (s.status = .fail ∧ s.last_alert_time ≠ none ∧ hb = true) := by
  obtain ⟨st, la, ep⟩ := s
  cases st <;> cases hb <;> cases la <;>
    simp [dStep, debounceStep] <;> split <;> simp

/-- Claim C5: in every state reachable from the default
`{status: OK, last_alert_time: null}` record by the per-poll transition,
`last_alert_time` is non-null only while the status is FAIL with at least
one alert already sent in the current fault episode, and it is cleared to
null exactly on the FAIL→OK transition. -/
theorem last_alert_time_invariant (c : Int) (inputs : List (Bool × Int)) :
    ((dRun c inputs).last_alert_time ≠ none →
      (dRun c inputs).status = .fail ∧ 1 ≤ (dRun c inputs).episodeAlerts)
    ∧ ∀ (hb : Bool) (t : Int),
        ((dRun c inputs).last_alert_time ≠ none ∧
          (dStep c (dRun c inputs) (hb, t)).last_alert_time = none) ↔
        ((dRun c inputs).status = .fail ∧
          (dRun c inputs).last_alert_time ≠ none ∧ hb = true) := by
  refine ⟨foldl_dStep_inv c inputs dInit (by simp [dInit]), ?_⟩
  intro hb t
  exact dStep_clears_iff c (dRun c inputs) hb t

theorem last_alert_time_invariant_witness :
    (dRun 30 [(false, 100)]).status = .fail ∧
      1 ≤ (dRun 30 [(false, 100)]).episodeAlerts :=
  (last_alert_time_invariant 30 [(false, 100)]).1 (by decide)

theorem unhealthyAlertCount_cons_alert (c l t : Int) (rest : List Int)
    (h : t - l ≥ c) :
    unhealthyAlertCount c (.fail, some l) (t :: rest) =
      1 + unhealthyAlertCount c (.fail, some t) rest := by
  simp [unhealthyAlertCount, debounceStep, h]

theorem unhealthyAlertCount_cons_noalert (c l t : Int) (rest : List Int)
    (h : ¬t - l ≥ c) :
    unhealthyAlertCount c (.fail, some l) (t :: rest) =
      unhealthyAlertCount c (.fail, some l) rest := by
  simp [unhealthyAlertCount, debounceStep, h]

theorem unhealthyAlertCount_cooldown (c : Nat) (hc : 1 ≤ c) :
    ∀ (T : Nat) (l s : Int), l ≤ s → (s - l).toNat < c →
      unhealthyAlertCount (↑c) (.fail, some l) (pollTimes s T) =
        (T + (s - l).toNat) / c := by
  intro T
  induction T with
  | zero =>
      intro l s _ hlt
      simp [pollTimes, unhealthyAlertCount, Nat.div_eq_of_lt hlt]
  | succ T ih =>
      intro l s hls hlt
      by_cases hge : (s + 1) - l ≥ (c : Int)
      · rw [pollTimes, unhealthyAlertCount_cons_alert _ _ _ _ hge,
          ih (s + 1) (s + 1) (le_refl _) (by omega)]
        have h3 : T + ((s + 1) - (s + 1)).toNat = T := by omega
        have h4 : T + 1 + (s - l).toNat = T + c := by omega
        rw [h3, h4, Nat.add_div_right _ (by omega : 0 < c)]
        omega
      · rw [pollTimes, unhealthyAlertCount_cons_noalert _ _ _ _ hge,
          ih l (s + 1) (by omega) (by omega)]
        have h4 : T + ((s + 1) - l).toNat = T + 1 + (s - l).toNat := by omega
        rw [h4]

theorem unhealthyAlertCount_zero :
    ∀ (T : Nat) (l s : Int), l ≤ s →
      unhealthyAlertCount 0 (.fail, some l) (pollTimes s T) = T := by
  intro T
  induction T with
  | zero => intro l s _; simp [pollTimes, unhealthyAlertCount]
  | succ T ih =>
      intro l s hls
      rw [pollTimes, unhealthyAlertCount_cons_alert _ _ _ _ (by omega),
        ih (s + 1) (s + 1) (le_refl _)]
      omega

/-- Claim C6: while the status is FAIL and the signal stays unhealthy, a
monitor polling once per second (as `monitor_cpu.py` does) emits, over an
interval of length `T` starting at the poll `t0` that last alerted, exactly
`⌊T / cooldown⌋ + 1` alerts (the alert at `t0` plus the later ones) when
`cooldown ≥ 1`; with `cooldown = 0` it alerts on every one of the `T`
subsequent polls, i.e. `T + 1` alerts in total. -/
theorem fail_alert_count (c T : Nat) (t0 : Int) :
    (1 ≤ c →
      1 + unhealthyAlertCount (↑c) (.fail, some t0) (pollTimes t0 T) =
        T / c + 1)
    ∧ (c = 0 →
      1 + unhealthyAlertCount (↑c) (.fail, some t0) (pollTimes t0 T) =
        T + 1) := by
  constructor
  · intro hc
    have h := unhealthyAlertCount_cooldown c hc T t0 t0 (le_refl _) (by omega)
    rw [h]
    have h2 : (t0 - t0).toNat = 0 := by omega
    rw [h2, Nat.add_zero]
    omega
  · intro hc
    subst hc
    have h := unhealthyAlertCount_zero T t0 t0 (le_refl _)
    simp only [Nat.cast_zero]
    rw [h]
    omega

theorem pfxOf_length_le {α : Type} [DecidableEq α] :
    ∀ p l : List α, p.isPrefixOf l → p.length ≤ l.length := by
  intro p
  induction p with
  | nil => intro l _; simp
  | cons a as ih =>
      intro l h
      cases l with
      | nil => simp [List.isPrefixOf] at h
      | cons b bs =>
          simp only [List.isPrefixOf, Bool.and_eq_true, beq_iff_eq] at h
          simpa using ih bs h.2

theorem pfxOf_append {α : Type} [DecidableEq α] :
    ∀ p l₁ l₂ : List α, p.isPrefixOf l₁ → p.isPrefixOf (l₁ ++ l₂) := by
  intro p
  induction p with
  | nil => intro l₁ l₂ _; simp [List.isPrefixOf]
  | cons a as ih =>
      intro l₁ l₂ h
      cases l₁ with
      | nil => simp [List.isPrefixOf] at h
      | cons b bs =>
          simp only [List.isPrefixOf, Bool.and_eq_true, beq_iff_eq] at h ⊢
          exact ⟨h.1, ih bs l₂ h.2⟩

theorem pfxOf_of_append {α : Type} [DecidableEq α] :
    ∀ p l₁ l₂ : List α, p.isPrefixOf (l₁ ++ l₂) → p.length ≤ l₁.length →
      p.isPrefixOf l₁ := by
  intro p
  induction p with
  | nil => intro l₁ l₂ _ _; simp [List.isPrefixOf]
  | cons a as ih =>
      intro l₁ l₂ h hlen
      cases l₁ with
      | nil => simp at hlen
      | cons b bs =>
          simp only [List.cons_append, List.isPrefixOf, Bool.and_eq_true,
            beq_iff_eq] at h ⊢
          exact ⟨h.1, ih bs l₂ h.2 (by simpa using hlen)⟩

theorem countOcc_short {α : Type} [DecidableEq α] (p : List α) :
    ∀ s : List α, s.length < p.length → countOcc p s = 0 := by
  intro s
  induction s with
  | nil => intro _; simp [countOcc]
  | cons a s ihs =>
      intro h
      rw [countOcc, if_neg]
      · exact ihs (by simp at h; omega)
      · rintro ⟨-, hpf⟩
        have := pfxOf_length_le p (a :: s) hpf
        simp at h this
        omega

theorem countOcc_drop_bounds {α : Type} [DecidableEq α] (p : List α) :
    ∀ n : Nat, ∀ s : List α, s.length ≤ n →
      ((∀ k, k < p.length → countOcc p s ≤ countOcc p (s.drop k) + 1) ∧
        (∀ m, countOcc p (s.drop m) ≤ countOcc p s)) := by
  intro n
  induction n with
  | zero =>
      intro s hs
      have hsnil : s = [] := List.eq_nil_of_length_eq_zero (Nat.le_zero.mp hs)
      subst hsnil
      exact ⟨fun k _ => by simp [countOcc], fun m => by simp [countOcc]⟩
  | succ n ih =>
      intro s hs
      have B1 : ∀ t : List α, t.length ≤ n + 1 →
          countOcc p (t.drop 1) ≤ countOcc p t := by
        intro t ht
        match t with
        | [] => simp
        | a :: t' =>
            show countOcc p t' ≤ countOcc p (a :: t')
            by_cases hcond : p ≠ [] ∧ p.isPrefixOf (a :: t')
            · rw [countOcc, if_pos hcond]
              have hk : p.length - 1 < p.length := by
                rcases hcond with ⟨hne, -⟩
                cases p with
                | nil => exact absurd rfl hne
                | cons x xs => simp
              exact (ih t' (by simpa using ht)).1 (p.length - 1) hk
            · rw [countOcc, if_neg hcond]
      have hA : ∀ k, k < p.length → countOcc p s ≤ countOcc p (s.drop k) + 1 := by
        intro k hk
        match s, k with
        | [], _ => simp [countOcc]
        | b :: s', 0 => simp
        | b :: s', (k' + 1) =>
            show countOcc p (b :: s') ≤ countOcc p (s'.drop k') + 1
            by_cases hcond : p ≠ [] ∧ p.isPrefixOf (b :: s')
            · rw [countOcc, if_pos hcond]
              have hdd : s'.drop (p.length - 1) =
                  (s'.drop k').drop (p.length - 1 - k') := by
                rw [List.drop_drop]
                congr 1
                omega
              rw [hdd]
              have hb := (ih s' (by simpa using hs)).2
              have hb2 := (ih (s'.drop k')
                (by rw [List.length_drop]; simp at hs; omega)).2 (p.length - 1 - k')
              omega
            · rw [countOcc, if_neg hcond]
              exact (ih s' (by simpa using hs)).1 k' (by omega)
      have hBone : ∀ m, countOcc p (s.drop m) ≤ countOcc p s := by
        intro m
        induction m with
        | zero => simp
        | succ m ihm =>
            have hdd : s.drop (m + 1) = (s.drop m).drop 1 := by
              rw [List.drop_drop]
            rw [hdd]
            exact le_trans
              (B1 (s.drop m) (by rw [List.length_drop]; omega)) ihm
      exact ⟨hA, hBone⟩

theorem countOcc_chunks_le {α : Type} [DecidableEq α] (p : List α) :
    ∀ n : Nat, ∀ A B : List α, A.length ≤ n →
      countOcc p A + countOcc p B ≤ countOcc p (A ++ B) := by
  intro n
  induction n with
  | zero =>
      intro A B hA
      have hAnil : A = [] := List.eq_nil_of_length_eq_zero (Nat.le_zero.mp hA)
      subst hAnil
      simp [countOcc]
  | succ n ih =>
      intro A B hA
      match A with
      | [] => simp [countOcc]
      | a :: A' =>
          by_cases hc1 : p ≠ [] ∧ p.isPrefixOf (a :: A')
          · have hc2 : p ≠ [] ∧ p.isPrefixOf (a :: (A' ++ B)) :=
              ⟨hc1.1, by simpa using pfxOf_append p (a :: A') B hc1.2⟩
            rw [countOcc, if_pos hc1, List.cons_append, countOcc, if_pos hc2]
            have hlen : p.length - 1 ≤ A'.length := by
              have := pfxOf_length_le p (a :: A') hc1.2
              simp at this
              omega
            rw [List.drop_append_of_le_length hlen]
            have := ih (A'.drop (p.length - 1)) B
              (by rw [List.length_drop]; simp at hA; omega)
            omega
          · rw [countOcc, if_neg hc1]
            by_cases hc2 : p ≠ [] ∧ p.isPrefixOf (a :: (A' ++ B))
            · have hplen : A'.length + 1 < p.length := by
                by_contra hle
                push_neg at hle
                exact hc1 ⟨hc2.1, pfxOf_of_append p (a :: A') B hc2.2
                  (by simpa using hle)⟩
              have hA0 : countOcc p A' = 0 := countOcc_short p A' (by omega)
              rw [hA0, List.cons_append, countOcc, if_pos hc2]
              have hdrop : (A' ++ B).drop (p.length - 1) =
                  B.drop (p.length - 1 - A'.length) := by
                rw [List.drop_append_eq_append_drop,
                  List.drop_eq_nil_of_le (by omega)]
                simp
              rw [hdrop]
              have hbd := (countOcc_drop_bounds p B.length B le_rfl).1
                (p.length - 1 - A'.length) (by omega)
              omega
            · rw [List.cons_append, countOcc, if_neg hc2]
              exact ih A' B (by simp at hA; omega)

theorem countOccA_eq_drop {α : Type} [DecidableEq α] (p : List α) :
    ∀ (s : List α) (k : Nat), countOccA p k s = countOcc p (s.drop k) := by
  intro s
  induction s with
  | nil => intro k; simp [countOccA, countOcc]
  | cons a s ihs =>
      intro k
      cases k with
      | zero =>
          by_cases hcond : p ≠ [] ∧ p.isPrefixOf (a :: s)
          · rw [List.drop_zero, countOccA, if_pos hcond, countOcc,
              if_pos hcond, ihs]
          · rw [List.drop_zero, countOccA, if_neg hcond, countOcc,
              if_neg hcond, ihs, List.drop_zero]
      | succ k => simp [countOccA, ihs k]

theorem countOcc_eq_countOccA {α : Type} [DecidableEq α] (p s : List α) :
    countOcc p s = countOccA p 0 s := by
  rw [countOccA_eq_drop, List.drop_zero]

/-- Claim C3: one scan step first determines the current size; an offset
beyond the size is reset to 0 and the whole current content is scanned;
otherwise only the bytes from the offset to the end are scanned; the new
cursor is the end-of-file position at read time, so a follow-up scan of the
grown file counts matches only in the appended content and never re-counts
a previously scanned byte. -/
theorem process_pattern_scan_spec {α : Type} [DecidableEq α]
    (content : List α) (offset : Nat) (p : List α) :
    (offset > content.length →
      process_pattern_scan content offset p =
        (countOcc p content, content.length))
    ∧ (offset ≤ content.length →
      process_pattern_scan content offset p =
        (countOcc p (content.drop offset), content.length))
    ∧ ∀ ext : List α,
        process_pattern_scan (content ++ ext)
            (process_pattern_scan content offset p).2 p =
          (countOcc p ext, content.length + ext.length) := by
  refine ⟨fun h => ?_, fun h => ?_, fun ext => ?_⟩
  · simp [process_pattern_scan, h]
  · simp [process_pattern_scan, Nat.not_lt.mpr h]
  · have h2 : (process_pattern_scan content offset p).2 = content.length := rfl
    rw [h2]
    have hnc : ¬content.length > (content ++ ext).length := by
      simp [List.length_append]
    show (countOcc p ((content ++ ext).drop
        (if content.length > (content ++ ext).length then 0
          else content.length)), (content ++ ext).length) =
      (countOcc p ext, content.length + ext.length)
    rw [if_neg hnc, List.drop_left, List.length_append]

theorem process_pattern_scan_spec_witness :
    process_pattern_scan ([0, 1, 1] : List ℕ) 5 [1] =
      (countOcc [1] [0, 1, 1], ([0, 1, 1] : List ℕ).length) :=
  (process_pattern_scan_spec [0, 1, 1] 5 [1]).1 (by decide)

set_option maxRecDepth 40000 in
/-- Claim C7 counterexample: with the single `[1, 2]` occurrence of
`cexContent` spanning the byte-99/100 boundary, scanning bytes `[0,100)`
and then bytes `[100,250)` totals 0 matches while one scan of `[0,250)`
finds 1, so the claimed equality of the two totals is false. -/
theorem scan_chunks_not_exact :
    ¬((process_pattern_scan (cexContent.take 100) 0 [1, 2]).1 +
        (process_pattern_scan cexContent 100 [1, 2]).1 =
        (process_pattern_scan cexContent 0 [1, 2]).1) := by
  simp only [process_pattern_scan, countOcc_eq_countOccA]
  decide

/-- Claim C7 (amended): scanning bytes `[0,n)` with one scan and bytes
`[n,end)` with the next never yields more matches than one scan of the whole
content — the totals agree except that a match spanning the chunk boundary
is missed by the chunked scans (it is never double-counted). -/
theorem scan_chunks_le {α : Type} [DecidableEq α] (content p : List α)
    (n : Nat) (h : n ≤ content.length) :
    (process_pattern_scan (content.take n) 0 p).1 +
      (process_pattern_scan content n p).1 ≤
      (process_pattern_scan content 0 p).1 := by
  have key := countOcc_chunks_le p (content.take n).length (content.take n)
    (content.drop n) le_rfl
  rw [List.take_append_drop] at key
  simpa [process_pattern_scan, Nat.not_lt.mpr h] using key

theorem scan_chunks_le_witness :
    (process_pattern_scan (([1, 2, 3] : List ℕ).take 2) 0 [9]).1 +
      (process_pattern_scan [1, 2, 3] 2 [9]).1 ≤
      (process_pattern_scan [1, 2, 3] 0 [9]).1 :=
  scan_chunks_le [1, 2, 3] [9] 2 (by decide)

theorem fail_alert_count_witness :
    (1 + unhealthyAlertCount ((2 : Nat) : Int) (.fail, some 0) (pollTimes 0 5) =
      5 / 2 + 1)
    ∧ (1 + unhealthyAlertCount ((0 : Nat) : Int) (.fail, some 0) (pollTimes 0 4) =
      4 + 1) :=
  ⟨(fail_alert_count 2 5 0).1 (by norm_num), (fail_alert_count 0 4 0).2 rfl⟩

/-- Claim C2: per pattern label, an evaluation inside the window only adds
this cycle's match count to `delta` and makes no status decision, leaving
baseline, `window_start`, status and alerts entry untouched; an evaluation
at or past the window close takes the STALLED branch exactly when the
accumulated `delta` is 0 (otherwise the ACTIVE branch) and rolls the
window by `baseline += delta, delta = 0, window_start = now`. -/
theorem labelStep_window_spec (w : WindowState) (prev : Status)
    (ae : Option Int) (td : Nat) (now interval cooldown : Int) :
    (now - w.window_start < interval →
      labelStep w prev ae td now interval cooldown =
        ⟨⟨w.baseline, w.delta + td, w.window_start⟩, prev, ae,
          false, false, none⟩)
    ∧ (now - w.window_start ≥ interval →
      (labelStep w prev ae td now interval cooldown).decision =
        some (if w.delta + td = 0 then WDecision.stalled else .active)
      ∧ (labelStep w prev ae td now interval cooldown).window =
        ⟨w.baseline + (w.delta + td), 0, now⟩) := by
  constructor
  · intro h
    simp [labelStep, h]
  · intro h
    have hnl : ¬now - w.window_start < interval := by omega
    by_cases hd : w.delta + td = 0 <;>
      simp only [labelStep, hnl, if_false, hd, if_pos, if_neg, if_true] <;>
      split <;> simp [hd]

theorem labelStep_window_spec_witness :
    (labelStep ⟨5, 2, 0⟩ .ok none 0 100 60 30).decision =
      some (if (⟨5, 2, 0⟩ : WindowState).delta + 0 = 0
        then WDecision.stalled else .active)
    ∧ (labelStep ⟨5, 2, 0⟩ .ok none 0 100 60 30).window =
      ⟨(⟨5, 2, 0⟩ : WindowState).baseline +
        ((⟨5, 2, 0⟩ : WindowState).delta + 0), 0, 100⟩ :=
  (labelStep_window_spec ⟨5, 2, 0⟩ .ok none 0 100 60 30).2 (by decide)

theorem runLabel_stalled_quiet (interval cooldown : Int) :
    ∀ (cycles : List (Nat × Int)) (w : WindowState) (ae : Option Int),
      (∀ x ∈ cycles, x.1 = 0) → w.delta = 0 →
      (runLabel interval cooldown w .fail ae cycles).2 = 0 ∧
        (runLabel interval cooldown w .fail ae cycles).1.2.1 = .fail := by
  intro cycles
  induction cycles with
  | nil => intro w ae _ _; simp [runLabel]
  | cons c rest ih =>
      intro w ae hall hw
      obtain ⟨td, now⟩ := c
      have htd : td = 0 := hall (td, now) (List.mem_cons_self _ _)
      subst htd
      have hstep : ∀ o : LabelOut,
          o = labelStep w .fail ae 0 now interval cooldown →
          o.failAlert = false ∧ o.status = .fail ∧ o.window.delta = 0 := by
        intro o ho
        by_cases hp : now - w.window_start < interval
        · subst ho; simp [labelStep, hp, hw]
        · subst ho; simp [labelStep, hp, hw]
      obtain ⟨hfa, hst, hwd⟩ := hstep _ rfl
      have := ih (labelStep w .fail ae 0 now interval cooldown).window
        ((labelStep w .fail ae 0 now interval cooldown).alertEntry)
        (fun x hx => hall x (List.mem_cons_of_mem _ hx)) hwd
      simp only [runLabel]
      rw [hst, hfa]
      simpa using this

/-- Claim C10: the parallel windowed trace-response aggregator emits a
stalled alert exactly when the window closes with zero delta, the pattern's
previous status is OK and the cooldown since the recorded alert time has
elapsed; in particular, once a pattern's status is FAIL, any run of further
activity-free cycles emits no alert and leaves the status FAIL, so no
repeated alert can occur until activity resumes. -/
theorem stalled_alert_gating (w : WindowState) (prev : Status)
    (ae : Option Int) (td : Nat) (now interval cooldown : Int) :
    ((labelStep w prev ae td now interval cooldown).failAlert = true ↔
      (now - w.window_start ≥ interval ∧ w.delta + td = 0 ∧ prev = .ok ∧
        now - ae.getD 0 ≥ cooldown))
    ∧ (∀ cycles : List (Nat × Int),
        (∀ x ∈ cycles, x.1 = 0) → w.delta = 0 → prev = .fail →
        (runLabel interval cooldown w prev ae cycles).2 = 0 ∧
          (runLabel interval cooldown w prev ae cycles).1.2.1 = .fail) := by
  constructor
  · by_cases hp : now - w.window_start < interval
    · have hfa : (labelStep w prev ae td now interval cooldown).failAlert =
          false := by
        simp [labelStep, hp]
      rw [hfa]
      simp only [Bool.false_eq_true, false_iff]
      rintro ⟨h1, -, -, -⟩
      omega
    · by_cases hd : w.delta + td = 0
      · by_cases hok : prev = .ok ∧ now - ae.getD 0 ≥ cooldown
        · have hfa : (labelStep w prev ae td now interval cooldown).failAlert =
              true := by
            simp [labelStep, hp, hd, hok]
          rw [hfa]
          simp only [true_iff]
          exact ⟨by omega, hd, hok.1, hok.2⟩
        · have hfa : (labelStep w prev ae td now interval cooldown).failAlert =
              false := by
            simp [labelStep, hp, hd, hok]
          rw [hfa]
          simp only [Bool.false_eq_true, false_iff]
          rintro ⟨-, -, h3, h4⟩
          exact hok ⟨h3, h4⟩
      · have hfa : (labelStep w prev ae td now interval cooldown).failAlert =
            false := by
          by_cases hfb : prev = .fail <;> simp [labelStep, hp, hd, hfb]
        rw [hfa]
        simp only [Bool.false_eq_true, false_iff]
        rintro ⟨-, h2, -, -⟩
        exact hd h2
  · intro cycles hall hw hprev
    subst hprev
    exact runLabel_stalled_quiet interval cooldown cycles w ae hall hw

theorem stalled_alert_gating_witness :
    (runLabel 60 30 ⟨5, 0, 0⟩ .fail (some 1) [(0, 100)]).2 = 0 ∧
      (runLabel 60 30 ⟨5, 0, 0⟩ .fail (some 1) [(0, 100)]).1.2.1 = .fail :=
  (stalled_alert_gating ⟨5, 0, 0⟩ .fail (some 1) 0 100 60 30).2
    [(0, 100)] (by decide) rfl rfl

/-- Claim C9: for every key, `load_state` returns the well-formed default
record — status OK, `last_alert_time` null, and (for the trace monitor) an
empty files sub-map — whenever the backing record is absent (`none`), or is
present but empty or unparsable (`some none`); being total Lean functions,
both loaders never raise. -/
theorem load_state_defaults (b1 : Option (Option CpuRecord))
    (b2 : Option (Option TraceRecord)) :
    ((b1 = none ∨ b1 = some none) → load_state_cpu b1 = cpuDefault)
    ∧ cpuDefault.status = .ok ∧ cpuDefault.last_alert_time = none
    ∧ ((b2 = none ∨ b2 = some none) → load_state_trace b2 = traceDefault)
    ∧ traceDefault.status = .ok ∧ traceDefault.last_alert_time = none
    ∧ traceDefault.files = [] := by
  refine ⟨?_, rfl, rfl, ?_, rfl, rfl, rfl⟩
  · rintro (rfl | rfl) <;> rfl
  · rintro (rfl | rfl) <;> rfl

theorem load_state_defaults_witness :
    load_state_cpu none = cpuDefault ∧
      load_state_trace (some none) = traceDefault :=
  ⟨(load_state_defaults none (some none)).1 (Or.inl rfl),
    (load_state_defaults none (some none)).2.2.2.1 (Or.inr rfl)⟩

/-- Claim C4 is violated by the code: `save_state` opens the target state
file with mode `"w"`, truncating it in place, and streams the record into
it with `json.dump`; no temporary file or atomic replace is involved.  A
crash mid-write therefore leaves a half-written record readable: here the
stage `['{', 'F', 'A']` (and the empty content right after the truncating
`open`) is observable and is neither the old record nor the new one. -/
theorem save_state_not_atomic :
    (['{', 'F', 'A'] ∈ save_state_intermediates newRecordCex
      ∧ ['{', 'F', 'A'] ≠ oldRecordCex ∧ ['{', 'F', 'A'] ≠ newRecordCex)
    ∧ (([] : List Char) ∈ save_state_intermediates newRecordCex
      ∧ ([] : List Char) ≠ oldRecordCex ∧ ([] : List Char) ≠ newRecordCex) := by
  decide

/-- Claim C8: whenever the freshness rule of `get_active_sip_log` (most
recently modified file whose name starts with the configured basename and
ends in `.log`) selects an active log different from the file recorded in
the instance's cursor state, the cursor's byte offset is reset to 0 (and
the cursor repointed) before the scan. -/
theorem active_log_change_resets_cursor (entries : List (List Char × Int))
    (base : List Char) (stored : InstState) (log_path : List Char)
    (hsel : get_active_sip_log entries base = some log_path)
    (hdiff : stored.file ≠ log_path) :
    (instStateFor (some stored) log_path).offset = 0 ∧
      (instStateFor (some stored) log_path).file = log_path := by
  simp [instStateFor, hdiff]

theorem active_log_change_resets_cursor_witness :
    (instStateFor
        (some ⟨.ok, none, 42, ['s', '1', '.', 'l', 'o', 'g']⟩)
        ['s', '2', '.', 'l', 'o', 'g']).offset = 0 ∧
      (instStateFor
        (some ⟨.ok, none, 42, ['s', '1', '.', 'l', 'o', 'g']⟩)
        ['s', '2', '.', 'l', 'o', 'g']).file = ['s', '2', '.', 'l', 'o', 'g'] :=
  active_log_change_resets_cursor
    [(['s', '1', '.', 'l', 'o', 'g'], 5), (['s', '2', '.', 'l', 'o', 'g'], 9)]
    ['s'] ⟨.ok, none, 42, ['s', '1', '.', 'l', 'o', 'g']⟩
    ['s', '2', '.', 'l', 'o', 'g'] (by decide) (by decide)

end Maxis
